import Mathlib

/-!
Verification development for the `psc` command line tools: a Google Play
Developer API publishing CLI (two variants, here `Part002` for the
googleapis-based CLI and `Part003` for the standalone fetch-based CLI) and a
GitHub App token wrapper (`PscGh`).  JavaScript strings are modelled as
`List Char`, byte buffers as `List Nat` (each element < 256), machine floats
that only ever get compared against 0 and 1 as `ℚ`, and fallible calls as
`Except String`.  Network transports and the file system enter as explicit
function parameters so the pure request/response logic of the source can be
stated and proved.
-/

namespace Psc

/-! ### JavaScript string primitives -/

/-- ASCII fragment of the whitespace class removed by `String.prototype.trim`. -/
def isJsSpace (c : Char) : Bool :=
  c = ' ' || c = '\t' || c = '\n' || c = '\r'

/-- JS `str.trim()` on a character list. -/
def jsTrim (l : List Char) : List Char :=
  ((l.dropWhile isJsSpace).reverse.dropWhile isJsSpace).reverse

/-- ASCII fragment of JS `toLowerCase` (the only fragment the CLIs exercise). -/
def asciiLowerChar (c : Char) : Char :=
  if 'A' ≤ c ∧ c ≤ 'Z' then Char.ofNat (c.toNat + 32) else c

/-- JS `str.toLowerCase()` restricted to ASCII letters. -/
def asciiLower (l : List Char) : List Char := l.map asciiLowerChar

/-- JS `str.split(sep)` for a one-character separator. -/
def splitOnCh (sep : Char) : List Char → List (List Char)
  | [] => [[]]
  | c :: rest =>
    if c = sep then [] :: splitOnCh sep rest
    else
      match splitOnCh sep rest with
      | [] => [[c]]
      | h :: t => (c :: h) :: t

/-- Decimal-digit test, the `/^\d+$/` character class. -/
def isAsciiDigit (c : Char) : Bool := decide ('0' ≤ c) && decide (c ≤ '9')

/-- JS truthiness of an optional string value (absent and `""` are falsy). -/
def optStrTruthy : Option String → Bool
  | some s => !s.isEmpty
  | none => false

/-- JS truthiness of an optional character-list value. -/
def optTruthy : Option (List Char) → Bool
  | some s => !s.isEmpty
  | none => false

/-- Normalizes a JS-falsy optional string to `none` (so `if (x)` branches can
be written as a `match`). -/
def truthyVal (a : Option String) : Option String :=
  if optStrTruthy a then a else none

/-- Normalizes a JS-falsy optional character list to `none`. -/
def truthyValL (a : Option (List Char)) : Option (List Char) :=
  if optTruthy a then a else none

/-- JS `a || b` on optional strings: `b` whenever `a` is falsy. -/
def jsOrStr (a b : Option String) : Option String :=
  if optStrTruthy a then a else b

/-- JS `a ?? b` (nullish coalescing) on optional strings. -/
def nullishOr (a b : Option String) : Option String :=
  match a with
  | some s => some s
  | none => b

/-- Whether an `Except` carries a success. -/
def isOkB {α : Type} : Except String α → Bool
  | .ok _ => true
  | .error _ => false

/-- Whether an `Except` carries an error. -/
def isErrB {α : Type} (e : Except String α) : Bool := !isOkB e

/-! ### Parsed JSON values

Numbers carry their JS string rendering (no claim performs arithmetic on a
JSON number, so the rendering is all that is ever consumed). -/

inductive Json where
  | str (s : String)
  | num (render : String)
  | bool (b : Bool)
  | null
  | arr (elems : List Json)
  | obj (fields : List (String × Json))

/-- JS truthiness of a parsed JSON value (number truthiness abstracted to the
`"0"` rendering; no claim depends on numeric JSON values). -/
def jsTruthy : Json → Bool
  | .str s => !s.isEmpty
  | .num r => r != "0"
  | .bool b => b
  | .null => false
  | .arr _ => true
  | .obj _ => true

/-- JS property access `j[key]` (missing property is `undefined`, i.e. `none`;
non-objects have no own properties the CLIs read). -/
def jsGetOpt (j : Json) (key : String) : Option Json :=
  match j with
  | .obj fields => fields.lookup key
  | _ => none

/-- JS truthiness of a possibly-`undefined` JSON value. -/
def jsTruthyOpt : Option Json → Bool
  | some j => jsTruthy j
  | none => false

mutual

/-- JS `String(value)` conversion (exact for the string, boolean and null
cases the claims exercise; arrays join their elements with `","`). -/
def jsToString : Json → String
  | .str s => s
  | .num r => r
  | .bool true => "true"
  | .bool false => "false"
  | .null => "null"
  | .arr xs => jsJoinComma xs
  | .obj _ => "[object Object]"

/-- Comma join used by JS array-to-string conversion. -/
def jsJoinComma : List Json → String
  | [] => ""
  | [x] => jsToString x
  | x :: y :: rest => jsToString x ++ "," ++ jsJoinComma (y :: rest)

end

/-! ### JS runtime values reaching the CLI helpers -/

/-- The JS values that can reach `maskValue` (option values, token strings,
and the non-string shapes its `typeof` guard rejects). -/
inductive JsVal where
  | undef
  | null
  | str (s : List Char)
  | num (q : ℚ)
  | bool (b : Bool)
deriving DecidableEq

/-- Whether a `JsVal` is a non-empty (JS-truthy) string. -/
def isNonemptyStr : JsVal → Bool
  | .str s => !s.isEmpty
  | _ => false

/-! ### Secret masking -/

/-- `maskValue` from `src/unnamed/part_002` lines 31-41: non-strings and the
empty string yield the literal `"(none)"`; a string no longer than
`visiblePrefix + visibleSuffix` yields a same-length run of `'*'`; otherwise
the first `visiblePrefix` and last `visibleSuffix` characters frame `"..."`. -/
def maskValue (value : JsVal) (visiblePrefix visibleSuffix : Nat) : List Char :=
  match value with
  | .str s =>
    if s.isEmpty then "(none)".toList
    else if s.length ≤ visiblePrefix + visibleSuffix then List.replicate s.length '*'
    else s.take visiblePrefix ++ "...".toList ++ s.drop (s.length - visibleSuffix)
  | _ => "(none)".toList

namespace PscGh

/-- `maskToken` from `src/bin/psc-gh.mjs` line 141:
`token.slice(0, 6) + "..." + token.slice(-4)`, with no length guard. -/
def maskToken (token : List Char) : List Char :=
  token.take 6 ++ "...".toList ++ token.drop (token.length - 4)

end PscGh

/-- Claim C1 (counterexample): the GitHub wrapper's `maskToken` has no
length guard, so for the 2-character secret `"ab"` (length ≤ 6 + 4 for any
prefix/suffix lengths the spec allows) it returns `"ab...ab"` — not a
same-length run of the redaction character, and it reveals the whole secret
as a substring. -/
theorem maskToken_short_secret_leak :
    ("ab".toList).length ≤ 6 + 4 ∧
    PscGh.maskToken "ab".toList = "ab...ab".toList ∧
    PscGh.maskToken "ab".toList ≠ List.replicate ("ab".toList).length '*' ∧
    "ab".toList <:+: PscGh.maskToken "ab".toList := by
  refine ⟨by decide, by decide, by decide, ?_⟩
  exact ⟨[], "...ab".toList, by decide⟩

/-- Claim C1 (amended): restricted to the Play CLI's `maskValue`, for every
non-empty secret of length at most `visiblePrefix + visibleSuffix` the result
is a same-length run of `'*'`, and every substring of the secret it could
reveal consists only of the redaction character. -/
theorem maskValue_short_secret_masked (s : List Char) (p q : Nat)
    (hne : s ≠ []) (hlen : s.length ≤ p + q) :
    maskValue (JsVal.str s) p q = List.replicate s.length '*' ∧
    ∀ t, t <:+: maskValue (JsVal.str s) p q → ∀ c ∈ t, c = '*' := by
  have hmask : maskValue (JsVal.str s) p q = List.replicate s.length '*' := by
    simp only [maskValue]
    rw [if_neg (by simpa using hne), if_pos hlen]
  refine ⟨hmask, ?_⟩
  intro t ht c hc
  rw [hmask] at ht
  exact List.eq_of_mem_replicate (ht.subset hc)

/-- Claim C1 (witness): the amended theorem applied to the concrete secret
`"ab"` with the Play CLI's default prefix/suffix lengths 8 and 4. -/
theorem maskValue_short_secret_masked_witness :
    ("ab".toList ≠ [] ∧ ("ab".toList).length ≤ 8 + 4) ∧
    (maskValue (JsVal.str "ab".toList) 8 4 = List.replicate ("ab".toList).length '*' ∧
      ∀ t, t <:+: maskValue (JsVal.str "ab".toList) 8 4 → ∀ c ∈ t, c = '*') :=
  ⟨⟨by decide, by decide⟩, maskValue_short_secret_masked "ab".toList 8 4 (by decide) (by decide)⟩

/-- Claim C9 (confirmed): `maskValue` maps every value that is not a
non-empty string — `undefined`, `null`, the empty string, numbers, booleans —
to the literal `"(none)"`, which in particular is not an empty run of the
redaction character. -/
theorem maskValue_non_string_none (v : JsVal) (p q : Nat)
    (h : isNonemptyStr v = false) :
    maskValue v p q = "(none)".toList ∧ "(none)".toList ≠ ([] : List Char) := by
  refine ⟨?_, by decide⟩
  cases v with
  | str s =>
    have hs : s.isEmpty = true := by simpa [isNonemptyStr] using h
    simp [maskValue, hs]
  | undef => rfl
  | null => rfl
  | num q => rfl
  | bool b => rfl

/-- Claim C9 (witness): the theorem applied to the empty string with the
default prefix/suffix lengths. -/
theorem maskValue_non_string_none_witness :
    isNonemptyStr (JsVal.str []) = false ∧
    (maskValue (JsVal.str []) 8 4 = "(none)".toList ∧ "(none)".toList ≠ ([] : List Char)) :=
  ⟨by decide, maskValue_non_string_none (JsVal.str []) 8 4 (by decide)⟩

/-! ### Boolean flag parsing (`part_003`) -/

/-- The values `parseArgs` in `src/unnamed/part_003` can store for an option:
absent, a string, or the bare-flag boolean `true`. -/
inductive ArgVal where
  | undef
  | str (s : List Char)
  | boolTrue
deriving DecidableEq

/-- JS `String(value)` on an option value. -/
def argValToString : ArgVal → List Char
  | .undef => "undefined".toList
  | .str s => s
  | .boolTrue => "true".toList

namespace Part003

/-- The normalized key `String(value).toLowerCase().trim()` that `boolOpt`
compares against its accepted literals. -/
def boolOptKey (v : ArgVal) : List Char := jsTrim (asciiLower (argValToString v))

/-- `boolOpt` from `src/unnamed/part_003` lines 45-51. -/
def boolOpt (value : ArgVal) (fallback : Option Bool) : Except String (Option Bool) :=
  match value with
  | .undef => .ok fallback
  | v =>
    let s := boolOptKey v
    if s = "1".toList ∨ s = "true".toList then .ok (some true)
    else if s = "0".toList ∨ s = "false".toList then .ok (some false)
    else .error "boolean parse failed"

end Part003

/-- Claim C10 (confirmed): `boolOpt` returns its fallback exactly for
`undefined`; for any other value it returns `true` iff the lowercased,
trimmed string form is `"1"` or `"true"`, returns `false` iff that form is
`"0"` or `"false"`, and throws otherwise; the bare-flag value `true`
stringifies to `"true"` and is accepted as `true`. -/
theorem boolOpt_spec :
    (∀ f, Part003.boolOpt ArgVal.undef f = .ok f) ∧
    (∀ v f, v ≠ ArgVal.undef →
      (Part003.boolOpt v f = .ok (some true) ↔
        (Part003.boolOptKey v = "1".toList ∨ Part003.boolOptKey v = "true".toList))) ∧
    (∀ v f, v ≠ ArgVal.undef →
      (Part003.boolOpt v f = .ok (some false) ↔
        (Part003.boolOptKey v = "0".toList ∨ Part003.boolOptKey v = "false".toList))) ∧
    (∀ v f, v ≠ ArgVal.undef →
      ((∃ m, Part003.boolOpt v f = .error m) ↔
        ¬(Part003.boolOptKey v = "1".toList ∨ Part003.boolOptKey v = "true".toList ∨
          Part003.boolOptKey v = "0".toList ∨ Part003.boolOptKey v = "false".toList))) ∧
    (∀ f, Part003.boolOpt ArgVal.boolTrue f = .ok (some true)) := by
  have hred : ∀ v f, v ≠ ArgVal.undef → Part003.boolOpt v f =
      (if Part003.boolOptKey v = "1".toList ∨ Part003.boolOptKey v = "true".toList then
        Except.ok (some true)
      else if Part003.boolOptKey v = "0".toList ∨ Part003.boolOptKey v = "false".toList then
        Except.ok (some false)
      else Except.error "boolean parse failed") := by
    intro v f hv
    cases v with
    | undef => exact absurd rfl hv
    | str s => rfl
    | boolTrue => rfl
  refine ⟨fun f => rfl, ?_, ?_, ?_, fun f => rfl⟩
  · intro v f hv
    rw [hred v f hv]
    by_cases h1 : Part003.boolOptKey v = "1".toList ∨ Part003.boolOptKey v = "true".toList
    · rw [if_pos h1]
      exact iff_of_true rfl h1
    · by_cases h0 : Part003.boolOptKey v = "0".toList ∨ Part003.boolOptKey v = "false".toList
      · rw [if_neg h1, if_pos h0]
        exact iff_of_false (by simp) h1
      · rw [if_neg h1, if_neg h0]
        exact iff_of_false (by simp) h1
  · intro v f hv
    rw [hred v f hv]
    by_cases h1 : Part003.boolOptKey v = "1".toList ∨ Part003.boolOptKey v = "true".toList
    · have h0 : ¬(Part003.boolOptKey v = "0".toList ∨ Part003.boolOptKey v = "false".toList) := by
        rcases h1 with h | h <;> rw [h] <;> decide
      rw [if_pos h1]
      exact iff_of_false (by simp) h0
    · by_cases h0 : Part003.boolOptKey v = "0".toList ∨ Part003.boolOptKey v = "false".toList
      · rw [if_neg h1, if_pos h0]
        exact iff_of_true rfl h0
      · rw [if_neg h1, if_neg h0]
        exact iff_of_false (by simp) h0
  · intro v f hv
    rw [hred v f hv]
    by_cases h1 : Part003.boolOptKey v = "1".toList ∨ Part003.boolOptKey v = "true".toList
    · rw [if_pos h1]
      exact iff_of_false (by simp) (by tauto)
    · by_cases h0 : Part003.boolOptKey v = "0".toList ∨ Part003.boolOptKey v = "false".toList
      · rw [if_neg h1, if_pos h0]
        exact iff_of_false (by simp) (by tauto)
      · rw [if_neg h1, if_neg h0]
        exact iff_of_true ⟨"boolean parse failed", rfl⟩ (by tauto)

/-- Claim C10 (witness): the theorem's true-branch applied to the concrete
defined value `" TRUE "`, whose lowercased trimmed form is `"true"`. -/
theorem boolOpt_spec_witness :
    (ArgVal.str " TRUE ".toList ≠ ArgVal.undef) ∧
    (Part003.boolOpt (ArgVal.str " TRUE ".toList) none = .ok (some true) ↔
      (Part003.boolOptKey (ArgVal.str " TRUE ".toList) = "1".toList ∨
        Part003.boolOptKey (ArgVal.str " TRUE ".toList) = "true".toList)) :=
  ⟨by decide, boolOpt_spec.2.1 (ArgVal.str " TRUE ".toList) none (by decide)⟩

/-! ### Token-exchange response handling -/

/-- The body of a 2xx OAuth2 token-exchange response, reduced to the one
field the CLI reads (`null` and a missing field are both `none`). -/
structure OAuthTokenBody where
  access_token : Option String

/-- The access-token extraction in `src/unnamed/part_003` lines 251-255:
`const accessToken = tokenResult.access_token; if (!accessToken) throw ...`. -/
def obtainAccessToken (body : OAuthTokenBody) : Except String String :=
  match truthyVal body.access_token with
  | some t => .ok t
  | none => .error "could not obtain access token"

/-- The body of a 2xx GitHub installation-token response, reduced to the
fields the wrapper reads. -/
structure GhTokenBody where
  token : Option String
  expires_at : Option String
deriving DecidableEq

/-- The post-2xx check in `src/bin/psc-gh.mjs` lines 134-138:
`if (!body.token) throw ...; return body`. -/
def installationTokenResult (body : GhTokenBody) : Except String GhTokenBody :=
  if optStrTruthy body.token then .ok body else .error "token response abnormal"

/-- Claim C6 (counterexample): a 2xx body whose `access_token` field is
present but the empty string still raises the error, so "raises an error if
and only if the response body lacks the access_token field" fails; the
installation-token path behaves the same way for `token`. -/
theorem obtainAccessToken_empty_token_error :
    (∃ m, obtainAccessToken { access_token := some "" } = .error m) ∧
    (OAuthTokenBody.mk (some "")).access_token ≠ none ∧
    (∃ m, installationTokenResult { token := some "", expires_at := none } = .error m) ∧
    (GhTokenBody.mk (some "") none).token ≠ none := by
  refine ⟨⟨"could not obtain access token", rfl⟩, by simp, ⟨"token response abnormal", rfl⟩, by simp⟩

/-- Claim C6 (amended): after a 2xx response, the OAuth2 path raises an error
iff `access_token` is absent or the empty string, and otherwise returns its
value; the installation-token path raises an error iff `token` is absent or
the empty string, and otherwise returns the body carrying it. -/
theorem tokenField_error_iff_absent_or_empty :
    (∀ b : OAuthTokenBody, (∃ m, obtainAccessToken b = .error m) ↔
      (b.access_token = none ∨ b.access_token = some "")) ∧
    (∀ (b : OAuthTokenBody) (t : String), b.access_token = some t → t ≠ "" →
      obtainAccessToken b = .ok t) ∧
    (∀ g : GhTokenBody, (∃ m, installationTokenResult g = .error m) ↔
      (g.token = none ∨ g.token = some "")) ∧
    (∀ (g : GhTokenBody) (t : String), g.token = some t → t ≠ "" →
      installationTokenResult g = .ok g) := by
  have hstr : ∀ s : String, s.isEmpty = true ↔ s = "" := fun s => String.isEmpty_iff s
  refine ⟨?_, ?_, ?_, ?_⟩
  · rintro ⟨tok⟩
    cases tok with
    | none => simp [obtainAccessToken, truthyVal, optStrTruthy]
    | some s =>
      by_cases hs : s = ""
      · subst hs
        exact iff_of_true ⟨"could not obtain access token", rfl⟩ (Or.inr rfl)
      · simp [obtainAccessToken, truthyVal, optStrTruthy, (hstr s).not.mpr hs, hs]
  · rintro ⟨tok⟩ t htok ht
    cases htok
    simp [obtainAccessToken, truthyVal, optStrTruthy, (hstr t).not.mpr ht]
  · rintro ⟨tok, exp⟩
    cases tok with
    | none => simp [installationTokenResult, optStrTruthy]
    | some s =>
      by_cases hs : s = ""
      · subst hs
        exact iff_of_true ⟨"token response abnormal", rfl⟩ (Or.inr rfl)
      · simp [installationTokenResult, optStrTruthy, (hstr s).not.mpr hs, hs]
  · rintro ⟨tok, exp⟩ t htok ht
    cases htok
    simp [installationTokenResult, optStrTruthy, (hstr t).not.mpr ht]

/-- Claim C6 (witness): the amended theorem's positive branch applied to a
concrete body carrying a non-empty token. -/
theorem tokenField_error_iff_absent_or_empty_witness :
    ((OAuthTokenBody.mk (some "ya29.tok")).access_token = some "ya29.tok" ∧ "ya29.tok" ≠ "") ∧
    obtainAccessToken { access_token := some "ya29.tok" } = .ok "ya29.tok" :=
  ⟨⟨rfl, by decide⟩,
    tokenField_error_iff_absent_or_empty.2.1 (OAuthTokenBody.mk (some "ya29.tok")) "ya29.tok"
      rfl (by decide)⟩

/-! ### Credential loading -/

/-- JS `typeof x === 'object'` on a parsed JSON value (true for objects,
arrays and `null`). -/
def isObjectType : Json → Bool
  | .obj _ => true
  | .arr _ => true
  | .null => true
  | _ => false

/-- The environment variables `part_002`'s loader reads. -/
structure Env2 where
  pscServiceAccountJson : Option String
  pscServiceAccountJsonPath : Option String
  googleApplicationCredentials : Option String

namespace Part002

/-- `validateServiceAccount` from `src/unnamed/part_002` lines 100-108. -/
def validateServiceAccount (credentials : Json) : Except String Unit :=
  if !(jsTruthy credentials && isObjectType credentials) then
    .error "service account credentials malformed"
  else if !(jsTruthyOpt (jsGetOpt credentials "client_email") &&
      jsTruthyOpt (jsGetOpt credentials "private_key")) then
    .error "service account credentials missing client_email or private_key"
  else .ok ()

/-- `loadServiceAccountCredentials` from `src/unnamed/part_002` lines 52-98.
`parse` models `JSON.parse` (`none` = parse failure), `fsRead` models
`existsSync`/`readFileSync` (`none` = missing file); `path.resolve` is
abstracted to the identity.  Returns the parsed credentials paired with the
reported source. -/
def loadServiceAccountCredentials (parse : String → Option Json)
    (fsRead : String → Option String) (env : Env2) (explicitPath : Option String) :
    Except String (Json × String) :=
  match truthyVal env.pscServiceAccountJson with
  | some rawJson =>
    match parse rawJson with
    | none => .error "PSC_SERVICE_ACCOUNT_JSON is not valid JSON"
    | some parsed =>
      match validateServiceAccount parsed with
      | .error e => .error e
      | .ok _ => .ok (parsed, "PSC_SERVICE_ACCOUNT_JSON")
  | none =>
    match truthyVal (jsOrStr explicitPath
        (jsOrStr env.pscServiceAccountJsonPath env.googleApplicationCredentials)) with
    | none => .error "service account credentials not found"
    | some credentialsPath =>
      match fsRead credentialsPath with
      | none => .error "service account file does not exist"
      | some content =>
        match parse content with
        | none => .error "service account file JSON parse failed"
        | some parsed =>
          match validateServiceAccount parsed with
          | .error e => .error e
          | .ok _ => .ok (parsed, credentialsPath)

end Part002

/-- The environment variables `part_003`'s loader reads. -/
structure Env3 where
  playServiceAccountJsonPath : Option String
  playServiceAccountJson : Option String

/-- The CLI options `part_003`'s loader reads. -/
structure Opts3 where
  serviceAccountJson : Option String
  serviceAccountJsonInline : Option String

namespace Part003

/-- `readServiceAccount` from `src/unnamed/part_003` lines 83-98: it consults
the path sources (`--service-account-json`, then
`PLAY_SERVICE_ACCOUNT_JSON_PATH`) before the inline sources
(`--service-account-json-inline`, then `PLAY_SERVICE_ACCOUNT_JSON`), and it
performs no field validation beyond `JSON.parse`. -/
def readServiceAccount (parse : String → Option Json) (fsRead : String → Option String)
    (env : Env3) (opts : Opts3) : Except String Json :=
  match truthyVal (nullishOr opts.serviceAccountJson env.playServiceAccountJsonPath) with
  | some fromFile =>
    match fsRead fromFile with
    | none => .error "no such file"
    | some raw =>
      match parse raw with
      | none => .error "service account file JSON parse failed"
      | some j => .ok j
  | none =>
    match truthyVal (nullishOr opts.serviceAccountJsonInline env.playServiceAccountJson) with
    | some inl =>
      match parse inl with
      | none => .error "inline service account JSON parse failed"
      | some j => .ok j
    | none => .error "service account JSON is required"

end Part003

/-- Claim C3 (counterexample): in `part_003`'s loader, with both the
inline-JSON environment variable (`PLAY_SERVICE_ACCOUNT_JSON = "INLINE"`) and
the path environment variable (`PLAY_SERVICE_ACCOUNT_JSON_PATH = "P"`)
populated, the credentials come from the file at `P`, not from the inline
JSON — so the claimed fixed order (inline env first) does not hold for this
loader. -/
theorem readServiceAccount_path_beats_inline :
    Part003.readServiceAccount
        (fun s => if s = "FILEJSON" then some (Json.str "fromFile")
          else if s = "INLINE" then some (Json.str "fromInline") else none)
        (fun p => if p = "P" then some "FILEJSON" else none)
        { playServiceAccountJsonPath := some "P", playServiceAccountJson := some "INLINE" }
        { serviceAccountJson := none, serviceAccountJsonInline := none }
      = .ok (Json.str "fromFile") ∧
    Json.str "fromFile" ≠ Json.str "fromInline" := by
  constructor
  · rfl
  · intro h
    injection h with h'
    exact absurd h' (by decide)

/-- Claim C3 (amended): restricted to `part_002`'s loader the claimed order
holds: (1) a populated `PSC_SERVICE_ACCOUNT_JSON` decides the outcome alone
(no other source is consulted); (2) otherwise a populated explicit path wins
over both path environment variables; (3) then `PSC_SERVICE_ACCOUNT_JSON_PATH`;
(4) then `GOOGLE_APPLICATION_CREDENTIALS`; (5) with every source unpopulated
the loader fails; and (6) a parse failure in a populated inline source raises
an error instead of falling through to the path sources. -/
theorem loadServiceAccountCredentials_order :
    (∀ parse fs fs' s pe pe' gc gc' ep ep', s ≠ "" →
      Part002.loadServiceAccountCredentials parse fs ⟨some s, pe, gc⟩ ep =
        Part002.loadServiceAccountCredentials parse fs' ⟨some s, pe', gc'⟩ ep') ∧
    (∀ parse fs inl pe gc e, optStrTruthy inl = false → e ≠ "" →
      Part002.loadServiceAccountCredentials parse fs ⟨inl, pe, gc⟩ (some e) =
        Part002.loadServiceAccountCredentials parse fs ⟨none, none, none⟩ (some e)) ∧
    (∀ parse fs inl ep p gc, optStrTruthy inl = false → optStrTruthy ep = false → p ≠ "" →
      Part002.loadServiceAccountCredentials parse fs ⟨inl, some p, gc⟩ ep =
        Part002.loadServiceAccountCredentials parse fs ⟨none, some p, none⟩ none) ∧
    (∀ parse fs inl ep pe g, optStrTruthy inl = false → optStrTruthy ep = false →
        optStrTruthy pe = false → g ≠ "" →
      Part002.loadServiceAccountCredentials parse fs ⟨inl, pe, some g⟩ ep =
        Part002.loadServiceAccountCredentials parse fs ⟨none, none, some g⟩ none) ∧
    (∀ parse fs inl pe gc ep, optStrTruthy inl = false → optStrTruthy ep = false →
        optStrTruthy pe = false → optStrTruthy gc = false →
      isErrB (Part002.loadServiceAccountCredentials parse fs ⟨inl, pe, gc⟩ ep) = true) ∧
    (∀ parse fs pe gc ep s, s ≠ "" → parse s = none →
      isErrB (Part002.loadServiceAccountCredentials parse fs ⟨some s, pe, gc⟩ ep) = true) := by
  have htv : ∀ s : String, s ≠ "" → truthyVal (some s) = some s := by
    intro s hs
    simp [truthyVal, optStrTruthy, String.isEmpty_iff, hs]
  have htf : ∀ a : Option String, optStrTruthy a = false → truthyVal a = none := by
    intro a ha
    simp [truthyVal, ha]
  have hor : ∀ a b : Option String, optStrTruthy a = false → jsOrStr a b = b := by
    intro a b ha
    simp [jsOrStr, ha]
  have horT : ∀ (s : String) (b : Option String), s ≠ "" → jsOrStr (some s) b = some s := by
    intro s b hs
    simp [jsOrStr, optStrTruthy, String.isEmpty_iff, hs]
  refine ⟨?_, ?_, ?_, ?_, ?_, ?_⟩
  · intro parse fs fs' s pe pe' gc gc' ep ep' hs
    simp only [Part002.loadServiceAccountCredentials, htv s hs]
  · intro parse fs inl pe gc e hinl he
    simp only [Part002.loadServiceAccountCredentials, htf inl hinl, htf none rfl,
      horT e _ he]
  · intro parse fs inl ep p gc hinl hep hp
    simp only [Part002.loadServiceAccountCredentials, htf inl hinl, htf none rfl,
      hor ep _ hep, hor none _ rfl, horT p _ hp]
  · intro parse fs inl ep pe g hinl hep hpe hg
    simp only [Part002.loadServiceAccountCredentials, htf inl hinl, htf none rfl,
      hor ep _ hep, hor none _ rfl, hor pe _ hpe, horT g _ hg]
  · intro parse fs inl pe gc ep hinl hep hpe hgc
    simp only [Part002.loadServiceAccountCredentials, htf inl hinl,
      hor ep _ hep, hor pe _ hpe, htf gc hgc]
    rfl
  · intro parse fs pe gc ep s hs hparse
    simp only [Part002.loadServiceAccountCredentials, htv s hs, hparse]
    rfl

/-- Claim C3 (witness): the amended theorem's first conjunct applied at a
populated inline source, with the path sources and the file system differing
arbitrarily on the two sides. -/
theorem loadServiceAccountCredentials_order_witness :
    ("J" ≠ "") ∧
    Part002.loadServiceAccountCredentials (fun _ => some Json.null) (fun _ => some "X")
        ⟨some "J", some "P", none⟩ (some "E") =
      Part002.loadServiceAccountCredentials (fun _ => some Json.null) (fun _ => none)
        ⟨some "J", none, some "G"⟩ none :=
  ⟨by decide,
    loadServiceAccountCredentials_order.1 (fun _ => some Json.null) (fun _ => some "X")
      (fun _ => none) "J" (some "P") none none (some "G") (some "E") none (by decide)⟩

/-! ### Release notes (`part_002`) -/

/-- One normalized release-notes entry `{language, text}`; the fields hold
whatever JS values the source stored (possibly `undefined`, i.e. `none`). -/
structure NoteEntry where
  language : Option Json
  text : Option Json

namespace Part002

/-- The array/object normalization inside `loadReleaseNotes`
(`src/unnamed/part_002` lines 237-265), applied to the parsed JSON. -/
def normalizeReleaseNotes : Json → Except String (List NoteEntry)
  | .arr entries =>
    let notes := entries.map fun e => NoteEntry.mk (jsGetOpt e "language") (jsGetOpt e "text")
    if notes.all fun n => jsTruthyOpt n.language && jsTruthyOpt n.text then .ok notes
    else .error "release notes array entries must include language and text"
  | .obj fields =>
    let notes := fields.map fun kv => NoteEntry.mk (some (.str kv.1)) (some (.str (jsToString kv.2)))
    if notes.length = 0 then .error "release notes object is empty"
    else .ok notes
  | _ => .error "release notes must be a JSON array or object"

/-- `loadReleaseNotes` from `src/unnamed/part_002` lines 220-266 (`fsRead`
models `existsSync`/`readFileSync`, `parse` models `JSON.parse`,
`path.resolve` abstracted to the identity; `.ok none` is the source's
`return undefined`). -/
def loadReleaseNotes (fsRead : String → Option String) (parse : String → Option Json)
    (filePath : Option String) : Except String (Option (List NoteEntry)) :=
  match truthyVal filePath with
  | none => .ok none
  | some p =>
    match fsRead p with
    | none => .error "release notes file does not exist"
    | some content =>
      match parse content with
      | none => .error "release notes JSON parse failed"
      | some parsed =>
        match normalizeReleaseNotes parsed with
        | .error e => .error e
        | .ok notes => .ok (some notes)

end Part002

/-- The documented array form `[{language, text}, ...]` of a release-notes
file, built from a list of (language, text) pairs. -/
def arrayForm (pairs : List (String × String)) : Json :=
  .arr (pairs.map fun lt => .obj [("language", .str lt.1), ("text", .str lt.2)])

/-- The documented object form `{language: text, ...}` of a release-notes
file, built from the same pairs. -/
def objectForm (pairs : List (String × String)) : Json :=
  .obj (pairs.map fun lt => (lt.1, .str lt.2))

/-- Claim C7 (counterexample): for the pair list `[("", "x")]` the two forms
disagree — the array form is rejected (empty `language` is JS-falsy) while
the object form is accepted — so the two forms do not normalize identically
for every set of (language, text) pairs. -/
theorem releaseNotes_forms_disagree_on_empty_language :
    Part002.normalizeReleaseNotes (arrayForm [("", "x")]) ≠
      Part002.normalizeReleaseNotes (objectForm [("", "x")]) ∧
    (∃ m, Part002.normalizeReleaseNotes (arrayForm [("", "x")]) = .error m) ∧
    Part002.normalizeReleaseNotes (objectForm [("", "x")]) =
      .ok [⟨some (.str ""), some (.str "x")⟩] := by
  have h1 : Part002.normalizeReleaseNotes (arrayForm [("", "x")]) =
      .error "release notes array entries must include language and text" := rfl
  have h2 : Part002.normalizeReleaseNotes (objectForm [("", "x")]) =
      .ok [⟨some (.str ""), some (.str "x")⟩] := rfl
  refine ⟨?_, ⟨_, h1⟩, h2⟩
  rw [h1, h2]
  exact fun h => Except.noConfusion h

/-- Claim C7 (amended): for every non-empty list of (language, text) pairs
whose languages and texts are all non-empty strings, the array form and the
object form normalize to the identical notes list; an array entry whose
`language` or `text` is missing or JS-falsy is rejected with an error, and an
empty object is rejected with an error. -/
theorem releaseNotes_forms_agree :
    (∀ pairs : List (String × String), pairs ≠ [] →
      (∀ lt ∈ pairs, lt.1 ≠ "" ∧ lt.2 ≠ "") →
      Part002.normalizeReleaseNotes (arrayForm pairs) =
        Part002.normalizeReleaseNotes (objectForm pairs)) ∧
    (∀ entries : List Json,
      (∃ e ∈ entries,
        (jsTruthyOpt (jsGetOpt e "language") && jsTruthyOpt (jsGetOpt e "text")) = false) →
      isErrB (Part002.normalizeReleaseNotes (.arr entries)) = true) ∧
    isErrB (Part002.normalizeReleaseNotes (.obj [])) = true := by
  refine ⟨?_, ?_, rfl⟩
  · intro pairs hne hok
    have hmapA : (pairs.map fun lt : String × String =>
        Json.obj [("language", .str lt.1), ("text", .str lt.2)]).map
          (fun e => NoteEntry.mk (jsGetOpt e "language") (jsGetOpt e "text")) =
        pairs.map fun lt => NoteEntry.mk (some (.str lt.1)) (some (.str lt.2)) := by
      rw [List.map_map]
      exact List.map_congr_left fun lt _ => rfl
    have hmapO : (pairs.map fun lt : String × String => (lt.1, Json.str lt.2)).map
        (fun kv => NoteEntry.mk (some (.str kv.1)) (some (.str (jsToString kv.2)))) =
        pairs.map fun lt => NoteEntry.mk (some (.str lt.1)) (some (.str lt.2)) := by
      rw [List.map_map]
      exact List.map_congr_left fun lt _ => rfl
    have hall : ((pairs.map fun lt => NoteEntry.mk (some (Json.str lt.1))
        (some (Json.str lt.2))).all fun n => jsTruthyOpt n.language && jsTruthyOpt n.text)
        = true := by
      rw [List.all_eq_true]
      intro n hn
      rw [List.mem_map] at hn
      obtain ⟨lt, hlt, rfl⟩ := hn
      obtain ⟨h1, h2⟩ := hok lt hlt
      have hf : ∀ s : String, s ≠ "" → s.isEmpty = false := by
        intro s hs
        rw [Bool.eq_false_iff]
        exact fun h => hs ((String.isEmpty_iff s).mp h)
      simp [jsTruthyOpt, jsTruthy, hf lt.1 h1, hf lt.2 h2]
    have hlen : (pairs.map fun lt => NoteEntry.mk (some (Json.str lt.1))
        (some (Json.str lt.2))).length ≠ 0 := by
      simpa using fun h => hne (List.eq_nil_of_length_eq_zero h)
    simp only [Part002.normalizeReleaseNotes, arrayForm, objectForm, hmapA, hmapO, hall,
      if_true, if_neg hlen]
  · intro entries hbad
    obtain ⟨e, he, hfalse⟩ := hbad
    have : ((entries.map fun e => NoteEntry.mk (jsGetOpt e "language") (jsGetOpt e "text")).all
        fun n => jsTruthyOpt n.language && jsTruthyOpt n.text) = false := by
      rw [List.all_eq_false]
      exact ⟨_, List.mem_map_of_mem _ he, by simp [hfalse]⟩
    simp [Part002.normalizeReleaseNotes, this, isErrB, isOkB]

/-- Claim C7 (witness): the amended equivalence applied to the documented
example pair `("en-US", "Bug fixes")`. -/
theorem releaseNotes_forms_agree_witness :
    (([("en-US", "Bug fixes")] : List (String × String)) ≠ [] ∧
      ∀ lt ∈ ([("en-US", "Bug fixes")] : List (String × String)), lt.1 ≠ "" ∧ lt.2 ≠ "") ∧
    Part002.normalizeReleaseNotes (arrayForm [("en-US", "Bug fixes")]) =
      Part002.normalizeReleaseNotes (objectForm [("en-US", "Bug fixes")]) :=
  ⟨⟨by decide, by decide⟩,
    releaseNotes_forms_agree.1 [("en-US", "Bug fixes")] (by decide) (by decide)⟩

/-! ### Version-code parsing -/

namespace Part002

/-- Insertion-order deduplication with a seen-set accumulator, the model of
JS `[...new Set(versionCodes)]`. -/
def dedupAux (seen : List (List Char)) : List (List Char) → List (List Char)
  | [] => []
  | a :: rest => if a ∈ seen then dedupAux seen rest else a :: dedupAux (a :: seen) rest

/-- JS `[...new Set(l)]`: duplicates removed, first occurrences kept. -/
def jsSetDedup (l : List (List Char)) : List (List Char) := dedupAux [] l

/-- The inner loop of `parseVersionCodes` over the comma-split pieces of one
option value: trim, skip empty, reject non-digit, keep digit items. -/
def collectItems : List (List Char) → Except String (List (List Char))
  | [] => .ok []
  | item :: rest =>
    let trimmed := jsTrim item
    if trimmed.isEmpty then collectItems rest
    else if trimmed.all isAsciiDigit then
      match collectItems rest with
      | .ok more => .ok (trimmed :: more)
      | .error e => .error e
    else .error "invalid versionCode"

/-- The outer loop of `parseVersionCodes` over the raw option values
(non-strings are skipped by the `typeof` guard). -/
def collectValuesItems : List JsVal → Except String (List (List Char))
  | [] => .ok []
  | .str v :: rest =>
    match collectItems (splitOnCh ',' v) with
    | .error e => .error e
    | .ok items =>
      match collectValuesItems rest with
      | .error e => .error e
      | .ok more => .ok (items ++ more)
  | _ :: rest => collectValuesItems rest

/-- `parseVersionCodes` from `src/unnamed/part_002` lines 164-192. -/
def parseVersionCodes (rawValues : List JsVal) : Except String (List (List Char)) :=
  match collectValuesItems rawValues with
  | .error e => .error e
  | .ok items =>
    if items.isEmpty then .error "at least one --version-code is required"
    else .ok (jsSetDedup items)

end Part002

namespace Part003

/-- `parseVersionCodes` from `src/unnamed/part_003` lines 234-238:
`String(raw).split(',').map(trim).filter(Boolean)` — no digit check, no
deduplication, no emptiness error. -/
def parseVersionCodes (raw : List Char) : List (List Char) :=
  ((splitOnCh ',' raw).map jsTrim).filter fun s => !s.isEmpty

end Part003

/-- Modelled from the spec's words "duplicates removed, preserving the order
of first occurrence", for comparison with the source's set-based dedup. -/
def specFirstOccurrence : List (List Char) → List (List Char)
  | [] => []
  | a :: rest => a :: specFirstOccurrence (rest.filter fun x => decide (x ≠ a))
termination_by l => l.length
decreasing_by
  simp only [List.length_cons]
  exact Nat.lt_succ_of_le (List.length_filter_le _ _)

/-- The trimmed non-empty comma-split items of all string option values, in
order — the item sequence `parseVersionCodes` inspects. -/
def trimmedItems : List JsVal → List (List Char)
  | [] => []
  | .str v :: rest =>
    (((splitOnCh ',' v).map jsTrim).filter fun t => !t.isEmpty) ++ trimmedItems rest
  | _ :: rest => trimmedItems rest

lemma collectItems_ok (pieces : List (List Char))
    (h : ∀ t ∈ ((pieces.map jsTrim).filter fun t => !t.isEmpty), t.all isAsciiDigit = true) :
    Part002.collectItems pieces = .ok ((pieces.map jsTrim).filter fun t => !t.isEmpty) := by
  induction pieces with
  | nil => rfl
  | cons p rest ih =>
    by_cases hp : (jsTrim p).isEmpty
    · have hfilter : ((p :: rest).map jsTrim).filter (fun t => !t.isEmpty) =
          (rest.map jsTrim).filter fun t => !t.isEmpty := by
        simp [List.filter_cons, hp]
      rw [hfilter] at h ⊢
      simpa [Part002.collectItems, hp] using ih h
    · have hfilter : ((p :: rest).map jsTrim).filter (fun t => !t.isEmpty) =
          jsTrim p :: ((rest.map jsTrim).filter fun t => !t.isEmpty) := by
        simp [List.filter_cons, hp]
      rw [hfilter] at h ⊢
      have hd : (jsTrim p).all isAsciiDigit = true := h _ (List.mem_cons_self _ _)
      have ih' := ih fun t ht => h t (List.mem_cons_of_mem _ ht)
      simp [Part002.collectItems, hp, hd, ih']

lemma collectItems_err (pieces : List (List Char))
    (h : ∃ t ∈ ((pieces.map jsTrim).filter fun t => !t.isEmpty),
      ¬ t.all isAsciiDigit = true) :
    ∃ m, Part002.collectItems pieces = .error m := by
  induction pieces with
  | nil => simp at h
  | cons p rest ih =>
    by_cases hp : (jsTrim p).isEmpty
    · have hfilter : ((p :: rest).map jsTrim).filter (fun t => !t.isEmpty) =
          (rest.map jsTrim).filter fun t => !t.isEmpty := by
        simp [List.filter_cons, hp]
      rw [hfilter] at h
      obtain ⟨m, hm⟩ := ih h
      exact ⟨m, by simpa [Part002.collectItems, hp] using hm⟩
    · have hfilter : ((p :: rest).map jsTrim).filter (fun t => !t.isEmpty) =
          jsTrim p :: ((rest.map jsTrim).filter fun t => !t.isEmpty) := by
        simp [List.filter_cons, hp]
      rw [hfilter] at h
      by_cases hd : (jsTrim p).all isAsciiDigit
      · have hrest : ∃ t ∈ ((rest.map jsTrim).filter fun t => !t.isEmpty),
            ¬ t.all isAsciiDigit = true := by
          obtain ⟨t, ht, hbad⟩ := h
          rcases List.mem_cons.mp ht with rfl | ht'
          · exact absurd hd hbad
          · exact ⟨t, ht', hbad⟩
        obtain ⟨m, hm⟩ := ih hrest
        exact ⟨m, by simp [Part002.collectItems, hp, hd, hm]⟩
      · exact ⟨"invalid versionCode", by simp [Part002.collectItems, hp, hd]⟩

lemma collectValuesItems_ok (rawValues : List JsVal)
    (h : ∀ t ∈ trimmedItems rawValues, t.all isAsciiDigit = true) :
    Part002.collectValuesItems rawValues = .ok (trimmedItems rawValues) := by
  induction rawValues with
  | nil => rfl
  | cons v rest ih =>
    cases v with
    | str s =>
      rw [trimmedItems] at h ⊢
      have h1 := collectItems_ok (splitOnCh ',' s) fun t ht =>
        h t (List.mem_append_left _ ht)
      have h2 := ih fun t ht => h t (List.mem_append_right _ ht)
      simp [Part002.collectValuesItems, h1, h2]
    | undef => exact ih h
    | null => exact ih h
    | num q => exact ih h
    | bool b => exact ih h

lemma collectValuesItems_err (rawValues : List JsVal)
    (h : ∃ t ∈ trimmedItems rawValues, ¬ t.all isAsciiDigit = true) :
    ∃ m, Part002.collectValuesItems rawValues = .error m := by
  induction rawValues with
  | nil => simp [trimmedItems] at h
  | cons v rest ih =>
    cases v with
    | str s =>
      rw [trimmedItems] at h
      obtain ⟨t, ht, hbad⟩ := h
      rcases List.mem_append.mp ht with hL | hR
      · obtain ⟨m, hm⟩ := collectItems_err (splitOnCh ',' s) ⟨t, hL, hbad⟩
        exact ⟨m, by simp [Part002.collectValuesItems, hm]⟩
      · obtain ⟨m, hm⟩ := ih ⟨t, hR, hbad⟩
        cases hc : Part002.collectItems (splitOnCh ',' s) with
        | error e => exact ⟨e, by simp [Part002.collectValuesItems, hc]⟩
        | ok items => exact ⟨m, by simp [Part002.collectValuesItems, hc, hm]⟩
    | undef => exact ih h
    | null => exact ih h
    | num q => exact ih h
    | bool b => exact ih h

lemma dedupAux_eq_specFirstOccurrence (l : List (List Char)) : ∀ seen,
    Part002.dedupAux seen l = specFirstOccurrence (l.filter fun x => decide (x ∉ seen)) := by
  induction l with
  | nil =>
    intro seen
    rw [List.filter_nil, specFirstOccurrence]
    rfl
  | cons a rest ih =>
    intro seen
    by_cases ha : a ∈ seen
    · rw [Part002.dedupAux, if_pos ha]
      have : (a :: rest).filter (fun x => decide (x ∉ seen)) =
          rest.filter fun x => decide (x ∉ seen) := by
        simp [List.filter_cons, ha]
      rw [this, ih seen]
    · rw [Part002.dedupAux, if_neg ha]
      have hhead : (a :: rest).filter (fun x => decide (x ∉ seen)) =
          a :: (rest.filter fun x => decide (x ∉ seen)) := by
        simp [List.filter_cons, ha]
      rw [hhead, specFirstOccurrence, ih (a :: seen)]
      have hfuse : ((rest.filter fun x => decide (x ∉ seen)).filter fun x => decide (x ≠ a)) =
          rest.filter fun x => decide (x ∉ a :: seen) := by
        rw [List.filter_filter]
        apply List.filter_congr
        intro x _
        by_cases hxa : x = a
        · simp [hxa, ha]
        · by_cases hxs : x ∈ seen <;> simp [hxa, hxs]
      rw [hfuse]

lemma jsSetDedup_eq_specFirstOccurrence (l : List (List Char)) :
    Part002.jsSetDedup l = specFirstOccurrence l := by
  rw [Part002.jsSetDedup, dedupAux_eq_specFirstOccurrence l []]
  congr 1
  exact List.filter_eq_self.mpr fun x _ => by simp

lemma specFirstOccurrence_subset (l : List (List Char)) : specFirstOccurrence l ⊆ l := by
  induction l using specFirstOccurrence.induct with
  | case1 =>
    rw [specFirstOccurrence]
    exact fun x hx => hx
  | case2 a rest ih =>
    rw [specFirstOccurrence]
    intro x hx
    rcases List.mem_cons.mp hx with rfl | hx'
    · exact List.mem_cons_self _ _
    · exact List.mem_cons_of_mem _ (List.mem_of_mem_filter (ih hx'))

lemma specFirstOccurrence_nodup (l : List (List Char)) : (specFirstOccurrence l).Nodup := by
  induction l using specFirstOccurrence.induct with
  | case1 =>
    rw [specFirstOccurrence]
    exact List.nodup_nil
  | case2 a rest ih =>
    rw [specFirstOccurrence]
    refine List.nodup_cons.mpr ⟨fun hmem => ?_, ih⟩
    have := List.mem_filter.mp (specFirstOccurrence_subset _ hmem)
    simp at this

/-- Claim C8 (counterexample): `part_003`'s `parseVersionCodes` accepts the
non-digit item `"abc"` without any error, keeps the duplicate in `"7,7"`, and
returns the empty list for the empty input instead of failing — so the claim
does not hold for this parser. -/
theorem part003_parseVersionCodes_accepts_nondigits :
    Part003.parseVersionCodes "abc".toList = ["abc".toList] ∧
    Part003.parseVersionCodes "7,7".toList = ["7".toList, "7".toList] ∧
    Part003.parseVersionCodes "".toList = [] := by
  refine ⟨by decide, by decide, by decide⟩

/-- Claim C8 (amended): restricted to `part_002`'s `parseVersionCodes`: any
input containing a trimmed non-empty item with a non-digit character fails
with a validation error; an input yielding zero items fails; otherwise the
result is exactly the first-occurrence deduplication of the items, which is
non-empty and duplicate-free. -/
theorem part002_parseVersionCodes_spec :
    (∀ rawValues, (∃ t ∈ trimmedItems rawValues, ¬ t.all isAsciiDigit = true) →
      isErrB (Part002.parseVersionCodes rawValues) = true) ∧
    (∀ rawValues, (∀ t ∈ trimmedItems rawValues, t.all isAsciiDigit = true) →
      trimmedItems rawValues = [] →
      isErrB (Part002.parseVersionCodes rawValues) = true) ∧
    (∀ rawValues, (∀ t ∈ trimmedItems rawValues, t.all isAsciiDigit = true) →
      trimmedItems rawValues ≠ [] →
      Part002.parseVersionCodes rawValues = .ok (specFirstOccurrence (trimmedItems rawValues)) ∧
      specFirstOccurrence (trimmedItems rawValues) ≠ [] ∧
      (specFirstOccurrence (trimmedItems rawValues)).Nodup) := by
  refine ⟨?_, ?_, ?_⟩
  · intro rawValues h
    obtain ⟨m, hm⟩ := collectValuesItems_err rawValues h
    simp [Part002.parseVersionCodes, hm, isErrB, isOkB]
  · intro rawValues hgood hempty
    rw [Part002.parseVersionCodes, collectValuesItems_ok rawValues hgood, hempty]
    rfl
  · intro rawValues hgood hne
    have hnonempty : (trimmedItems rawValues).isEmpty = false := by
      cases h : trimmedItems rawValues with
      | nil => exact absurd h hne
      | cons a l => rfl
    refine ⟨?_, ?_, specFirstOccurrence_nodup _⟩
    · rw [Part002.parseVersionCodes, collectValuesItems_ok rawValues hgood]
      simp [hnonempty, jsSetDedup_eq_specFirstOccurrence]
    · cases h : trimmedItems rawValues with
      | nil => exact absurd h hne
      | cons a l =>
        rw [specFirstOccurrence]
        exact List.cons_ne_nil _ _

/-- Claim C8 (witness): the amended theorem's success branch applied to the
concrete input `["5, 3,5"]`, whose items dedup to `["5", "3"]`. -/
theorem part002_parseVersionCodes_spec_witness :
    ((∀ t ∈ trimmedItems [JsVal.str "5, 3,5".toList], t.all isAsciiDigit = true) ∧
      trimmedItems [JsVal.str "5, 3,5".toList] ≠ []) ∧
    (Part002.parseVersionCodes [JsVal.str "5, 3,5".toList] =
        .ok (specFirstOccurrence (trimmedItems [JsVal.str "5, 3,5".toList])) ∧
      specFirstOccurrence (trimmedItems [JsVal.str "5, 3,5".toList]) ≠ [] ∧
      (specFirstOccurrence (trimmedItems [JsVal.str "5, 3,5".toList])).Nodup) :=
  ⟨⟨by decide, by decide⟩,
    part002_parseVersionCodes_spec.2.2 [JsVal.str "5, 3,5".toList] (by decide) (by decide)⟩

/-! ### Release construction -/

/-- The options consumed by `buildReleaseFromOptions`.  `userFraction` and
`inAppUpdatePriority` hold the numeric value after JS `Number(raw)` when the
option was supplied (`some none` models a non-finite result such as `NaN`). -/
structure Options2 where
  status : Option (List Char)
  releaseName : Option (List Char)
  userFraction : Option (Option ℚ)
  inAppUpdatePriority : Option (Option ℚ)
  releaseNotesFile : Option String

/-- The release object `part_002` sends in a track update. -/
structure Release2 where
  status : List Char
  versionCodes : List (List Char)
  name : Option (List Char)
  userFraction : Option ℚ
  inAppUpdatePriority : Option ℚ
  releaseNotes : Option (List NoteEntry)

namespace Part002

/-- `parseUserFraction` from `src/unnamed/part_002` lines 194-205. -/
def parseUserFraction : Option (Option ℚ) → Except String (Option ℚ)
  | none => .ok none
  | some none => .error "--user-fraction must be strictly between 0 and 1"
  | some (some q) =>
    if q ≤ 0 ∨ 1 ≤ q then .error "--user-fraction must be strictly between 0 and 1"
    else .ok (some q)

/-- `parseInAppUpdatePriority` from `src/unnamed/part_002` lines 207-218. -/
def parseInAppUpdatePriority : Option (Option ℚ) → Except String (Option ℚ)
  | none => .ok none
  | some none => .error "--in-app-update-priority must be an integer between 0 and 5"
  | some (some q) =>
    if ¬ q.den = 1 ∨ q < 0 ∨ 5 < q then
      .error "--in-app-update-priority must be an integer between 0 and 5"
    else .ok (some q)

/-- The allowed release statuses. -/
def allowedStatuses : List (List Char) :=
  ["draft".toList, "inProgress".toList, "halted".toList, "completed".toList]

/-- `buildReleaseFromOptions` from `src/unnamed/part_002` lines 268-305,
check order as in the source: status whitelist, release name, user fraction,
the inProgress/userFraction invariant, update priority, release notes. -/
def buildReleaseFromOptions (fsRead : String → Option String) (parse : String → Option Json)
    (options : Options2) (versionCodes : List (List Char)) : Except String Release2 :=
  let status := match truthyValL options.status with
    | some s => s
    | none => "completed".toList
  if status ∉ allowedStatuses then .error "invalid release status"
  else
    let name := truthyValL options.releaseName
    match parseUserFraction options.userFraction with
    | .error e => .error e
    | .ok userFraction =>
      if status = "inProgress".toList ∧ userFraction = none then
        .error "status inProgress requires --user-fraction"
      else
        match parseInAppUpdatePriority options.inAppUpdatePriority with
        | .error e => .error e
        | .ok updatePriority =>
          match loadReleaseNotes fsRead parse options.releaseNotesFile with
          | .error e => .error e
          | .ok releaseNotes =>
            .ok { status := status, versionCodes := versionCodes, name := name,
                  userFraction := userFraction, inAppUpdatePriority := updatePriority,
                  releaseNotes := releaseNotes }

/-- The `tracks update` action of `src/unnamed/part_002` lines 562-578 from
the point where its option values are parsed: version codes, then the
release, then the network call (`send` models `api.edits.tracks.update`).
The boolean records whether the network call was issued. -/
def tracksUpdateAction (send : Release2 → Except String Json)
    (fsRead : String → Option String) (parse : String → Option Json)
    (options : Options2) (rawVersionCodes : List JsVal) : Bool × Except String Json :=
  match parseVersionCodes rawVersionCodes with
  | .error e => (false, .error e)
  | .ok versionCodes =>
    match buildReleaseFromOptions fsRead parse options versionCodes with
    | .error e => (false, .error e)
    | .ok release => (true, send release)

end Part002

/-- The release object `part_003` sends in a track update. -/
structure Release3 where
  status : String
  versionCodes : List String
  name : Option String
  releaseNotes : Option (List (String × String))
  userFraction : Option ℚ
  inAppUpdatePriority : Option ℚ
deriving DecidableEq

/-- The `PUT .../tracks/{track}` request body `{track, releases: [release]}`. -/
structure TrackRequest where
  track : String
  releases : List Release3
deriving DecidableEq

namespace Part003

/-- `tracksUpdate` from `src/unnamed/part_003` lines 197-226: the release is
assembled with spread-style optional fields (`name` and `releaseNotes` by JS
truthiness, `userFraction` and `inAppUpdatePriority` by presence) and the
request is sent unconditionally — there is no client-side validation.
`send` models `jsonRequest`/`fetch`; URL construction from `packageName` and
`editId` is carried by `send`. -/
def tracksUpdate (send : TrackRequest → Except String Json)
    (packageName editId track : String) (versionCodes : List String) (status : String)
    (releaseName : Option String) (releaseNotes : Option String)
    (userFraction : Option ℚ) (inAppUpdatePriority : Option ℚ) : Except String Json :=
  let release : Release3 :=
    { status := status
      versionCodes := versionCodes
      name := if optStrTruthy releaseName then releaseName else none
      releaseNotes := match truthyVal releaseNotes with
        | some t => some [("ko-KR", t)]
        | none => none
      userFraction := userFraction
      inAppUpdatePriority := inAppUpdatePriority }
  send { track := track, releases := [release] }

end Part003

/-- The request an inProgress track update without a user fraction produces
in `part_003` (used only to probe `tracksUpdate` in the C4 counterexample). -/
def probeRequestNoFraction : TrackRequest :=
  { track := "production"
    releases := [{ status := "inProgress", versionCodes := ["100"], name := none,
                   releaseNotes := none, userFraction := none, inAppUpdatePriority := none }] }

/-- The request a track update with userFraction 0 produces in `part_003`
(used only to probe `tracksUpdate` in the C4 counterexample). -/
def probeRequestZeroFraction : TrackRequest :=
  { track := "production"
    releases := [{ status := "inProgress", versionCodes := ["100"], name := none,
                   releaseNotes := none, userFraction := some 0, inAppUpdatePriority := none }] }

/-- Claim C4 (counterexample): `part_003`'s `tracksUpdate` issues the track
update unconditionally: with status `"inProgress"` and no user fraction the
request is sent carrying no `userFraction` (first two conjuncts, where the
probing `send` reports which release it received), and a user fraction of 0
is likewise sent to the server rather than rejected (third conjunct). -/
theorem tracksUpdate_no_validation :
    Part003.tracksUpdate (fun _ => .ok Json.null) "pkg" "E1" "production" ["100"]
        "inProgress" none none none none = .ok Json.null ∧
    Part003.tracksUpdate
        (fun req => if req = probeRequestNoFraction
          then .error "request sent without userFraction" else .ok Json.null)
        "pkg" "E1" "production" ["100"] "inProgress" none none none none
      = .error "request sent without userFraction" ∧
    Part003.tracksUpdate
        (fun req => if req = probeRequestZeroFraction
          then .error "request sent with userFraction 0" else .ok Json.null)
        "pkg" "E1" "production" ["100"] "inProgress" none none (some 0) none
      = .error "request sent with userFraction 0" := by
  refine ⟨rfl, ?_, ?_⟩ <;>
    simp [Part003.tracksUpdate, truthyVal, optStrTruthy, probeRequestNoFraction,
      probeRequestZeroFraction]

/-- Claim C4 (amended): restricted to `part_002`: a track update with status
`"inProgress"` and no user fraction fails with a validation error and never
issues the network call; a supplied user fraction of 0 or 1 likewise fails
before the network call; and a fraction strictly between 0 and 1 (together
with otherwise well-formed options) is accepted and included in the built
release. -/
theorem buildReleaseFromOptions_userFraction_rules :
    (∀ send fsRead parse opts raw, opts.status = some "inProgress".toList →
      opts.userFraction = none →
      (Part002.tracksUpdateAction send fsRead parse opts raw).1 = false ∧
      isErrB (Part002.tracksUpdateAction send fsRead parse opts raw).2 = true) ∧
    (∀ send fsRead parse opts raw,
      (opts.userFraction = some (some 0) ∨ opts.userFraction = some (some 1)) →
      (Part002.tracksUpdateAction send fsRead parse opts raw).1 = false ∧
      isErrB (Part002.tracksUpdateAction send fsRead parse opts raw).2 = true) ∧
    (∀ fsRead parse opts vcs (q : ℚ), 0 < q → q < 1 →
      opts.status = some "inProgress".toList →
      opts.userFraction = some (some q) →
      opts.inAppUpdatePriority = none →
      opts.releaseNotesFile = none →
      ∃ r, Part002.buildReleaseFromOptions fsRead parse opts vcs = .ok r ∧
        r.userFraction = some q ∧ r.status = "inProgress".toList) := by
  have hbuildProg : ∀ fsRead parse opts vcs, opts.status = some "inProgress".toList →
      opts.userFraction = none →
      isErrB (Part002.buildReleaseFromOptions fsRead parse opts vcs) = true := by
    intro fsRead parse opts vcs hst huf
    simp only [Part002.buildReleaseFromOptions, hst, huf]
    rfl
  have hbuild01 : ∀ fsRead parse opts vcs,
      (opts.userFraction = some (some 0) ∨ opts.userFraction = some (some 1)) →
      isErrB (Part002.buildReleaseFromOptions fsRead parse opts vcs) = true := by
    intro fsRead parse opts vcs huf
    have hpf : ∃ m, Part002.parseUserFraction opts.userFraction = .error m := by
      rcases huf with h | h <;> rw [h] <;>
        exact ⟨"--user-fraction must be strictly between 0 and 1",
          by simp [Part002.parseUserFraction]⟩
    obtain ⟨m, hm⟩ := hpf
    simp only [Part002.buildReleaseFromOptions, hm]
    by_cases hs : (match truthyValL opts.status with
        | some s => s
        | none => "completed".toList) ∉ Part002.allowedStatuses
    · rw [if_pos hs]
      rfl
    · rw [if_neg hs]
      rfl
  refine ⟨?_, ?_, ?_⟩
  · intro send fsRead parse opts raw hst huf
    rcases hvc : Part002.parseVersionCodes raw with e | vcs
    · exact ⟨by simp [Part002.tracksUpdateAction, hvc], by simp [Part002.tracksUpdateAction, hvc, isErrB, isOkB]⟩
    · have herr := hbuildProg fsRead parse opts vcs hst huf
      rcases hb : Part002.buildReleaseFromOptions fsRead parse opts vcs with e | r
      · exact ⟨by simp [Part002.tracksUpdateAction, hvc, hb],
          by simp [Part002.tracksUpdateAction, hvc, hb, isErrB, isOkB]⟩
      · rw [hb] at herr
        exact absurd herr (by simp [isErrB, isOkB])
  · intro send fsRead parse opts raw huf
    rcases hvc : Part002.parseVersionCodes raw with e | vcs
    · exact ⟨by simp [Part002.tracksUpdateAction, hvc], by simp [Part002.tracksUpdateAction, hvc, isErrB, isOkB]⟩
    · have herr := hbuild01 fsRead parse opts vcs huf
      rcases hb : Part002.buildReleaseFromOptions fsRead parse opts vcs with e | r
      · exact ⟨by simp [Part002.tracksUpdateAction, hvc, hb],
          by simp [Part002.tracksUpdateAction, hvc, hb, isErrB, isOkB]⟩
      · rw [hb] at herr
        exact absurd herr (by simp [isErrB, isOkB])
  · intro fsRead parse opts vcs q hq0 hq1 hst huf hprio hnotes
    have hfr : Part002.parseUserFraction opts.userFraction = .ok (some q) := by
      rw [huf, Part002.parseUserFraction]
      rw [if_neg]
      push_neg
      exact ⟨hq0, hq1⟩
    refine ⟨⟨"inProgress".toList, vcs, truthyValL opts.releaseName, some q, none, none⟩,
      ?_, rfl, rfl⟩
    simp only [Part002.buildReleaseFromOptions, hst, hfr, hprio, hnotes]
    have hmem : truthyValL (some "inProgress".toList) = some "inProgress".toList := rfl
    rw [hmem, if_neg (by decide : ¬("inProgress".toList ∉ Part002.allowedStatuses))]
    rw [if_neg (by simp)]
    rfl

/-- Claim C4 (witness): the amended theorem's rejection branch applied to a
concrete option set with status `inProgress` and no user fraction, showing
the build fails and the track-update call is not issued. -/
theorem buildReleaseFromOptions_userFraction_rules_witness :
    ((Options2.mk (some "inProgress".toList) none none none none).status =
        some "inProgress".toList ∧
      (Options2.mk (some "inProgress".toList) none none none none).userFraction = none) ∧
    ((Part002.tracksUpdateAction (fun _ => .ok Json.null) (fun _ => none) (fun _ => none)
        (Options2.mk (some "inProgress".toList) none none none none)
        [JsVal.str "7".toList]).1 = false ∧
      isErrB (Part002.tracksUpdateAction (fun _ => .ok Json.null) (fun _ => none)
        (fun _ => none) (Options2.mk (some "inProgress".toList) none none none none)
        [JsVal.str "7".toList]).2 = true) :=
  ⟨⟨rfl, rfl⟩,
    buildReleaseFromOptions_userFraction_rules.1 (fun _ => .ok Json.null) (fun _ => none)
      (fun _ => none) (Options2.mk (some "inProgress".toList) none none none none)
      [JsVal.str "7".toList] rfl rfl⟩

/-! ### Publish orchestrator (`part_003` `publish submit`) -/

/-- The five remote calls of the publish flow. -/
inductive Step where
  | create
  | upload
  | track
  | validate
  | commit
deriving DecidableEq, Repr

/-- Mocked remote responses, one per call: `.error` models a thrown
`jsonRequest` failure (non-2xx or transport), `.ok` the parsed 2xx body. -/
structure MockApi where
  createEdit : Except String Json
  uploadBundle : Except String Json
  updateTrack : Except String Json
  validateEdit : Except String Json
  commitEdit : Except String Json

/-- The final `print` payload of a successful publish. -/
structure PublishOutput where
  editId : Option Json
  upload : Json
  track : Json
  validate : Json
  commit : Json

/-- The canonical call order of the publish flow. -/
def stepOrder : List Step := [.create, .upload, .track, .validate, .commit]

/-- The step issued in position `i` of the publish flow. -/
def stepAt : Nat → Step
  | 0 => .create
  | 1 => .upload
  | 2 => .track
  | 3 => .validate
  | _ => .commit

namespace Part003

/-- The `publish submit` branch of `main` in `src/unnamed/part_003` lines
352-389: createEdit, missing-id check, uploadBundle, missing-versionCode
check, updateTrack, validateEdit, commitEdit, each awaited before the next is
constructed.  The first component records the calls actually issued, in
order. -/
def publishSubmit (api : MockApi) : List Step × Except String PublishOutput :=
  match api.createEdit with
  | .error e => ([.create], .error e)
  | .ok edit =>
    if jsTruthyOpt (jsGetOpt edit "id") then
      match api.uploadBundle with
      | .error e => ([.create, .upload], .error e)
      | .ok uploaded =>
        if jsTruthyOpt (jsGetOpt uploaded "versionCode") then
          match api.updateTrack with
          | .error e => ([.create, .upload, .track], .error e)
          | .ok trackResult =>
            match api.validateEdit with
            | .error e => ([.create, .upload, .track, .validate], .error e)
            | .ok validateResult =>
              match api.commitEdit with
              | .error e => (stepOrder, .error e)
              | .ok commitResult =>
                (stepOrder, .ok ⟨jsGetOpt edit "id", uploaded, trackResult,
                  validateResult, commitResult⟩)
        else ([.create, .upload], .error "bundle upload failed: missing versionCode")
    else ([.create], .error "edit create failed: missing editId")

end Part003

/-- Whether a step's call succeeds, including the required-field checks the
flow performs on the create and upload responses. -/
def stepOkB (api : MockApi) : Step → Bool
  | .create =>
    match api.createEdit with
    | .ok j => jsTruthyOpt (jsGetOpt j "id")
    | .error _ => false
  | .upload =>
    match api.uploadBundle with
    | .ok j => jsTruthyOpt (jsGetOpt j "versionCode")
    | .error _ => false
  | .track => isOkB api.updateTrack
  | .validate => isOkB api.validateEdit
  | .commit => isOkB api.commitEdit

/-- Claim C2 (confirmed): for every mocked remote behaviour, the calls the
publish flow issues form a prefix of
createEdit, uploadBundle, updateTrack, validateEdit, commitEdit; and whenever
the first `k` steps succeed but step `k` fails (throws or lacks its required
response field), exactly the first `k + 1` calls are issued — none of the
later ones — and the flow terminates in failure. -/
theorem publishSubmit_sequential_abort (api : MockApi) :
    (Part003.publishSubmit api).1 <+: stepOrder ∧
    ∀ k, k < 5 → (∀ j, j < k → stepOkB api (stepAt j) = true) →
      stepOkB api (stepAt k) = false →
      (Part003.publishSubmit api).1 = stepOrder.take (k + 1) ∧
      isOkB (Part003.publishSubmit api).2 = false := by
  obtain ⟨c, u, t, v, m⟩ := api
  rcases c with ce | cj
  · refine ⟨⟨[.upload, .track, .validate, .commit], rfl⟩, ?_⟩
    intro k hk hpre hfail
    match k, hk with
    | 0, _ => exact ⟨rfl, rfl⟩
    | 1, _ => exact absurd (hpre 0 (by omega)) (by simp [stepOkB, stepAt])
    | 2, _ => exact absurd (hpre 0 (by omega)) (by simp [stepOkB, stepAt])
    | 3, _ => exact absurd (hpre 0 (by omega)) (by simp [stepOkB, stepAt])
    | 4, _ => exact absurd (hpre 0 (by omega)) (by simp [stepOkB, stepAt])
  · by_cases hid : jsTruthyOpt (jsGetOpt cj "id")
    · rcases u with ue | uj
      · refine ⟨⟨[.track, .validate, .commit], by simp [Part003.publishSubmit, hid, stepOrder]⟩, ?_⟩
        intro k hk hpre hfail
        match k, hk with
        | 0, _ => exact absurd hfail (by simp [stepOkB, stepAt, hid])
        | 1, _ => exact ⟨by simp [Part003.publishSubmit, hid, stepOrder], by simp [Part003.publishSubmit, hid, isOkB]⟩
        | 2, _ => exact absurd (hpre 1 (by omega)) (by simp [stepOkB, stepAt])
        | 3, _ => exact absurd (hpre 1 (by omega)) (by simp [stepOkB, stepAt])
        | 4, _ => exact absurd (hpre 1 (by omega)) (by simp [stepOkB, stepAt])
      · by_cases hvc : jsTruthyOpt (jsGetOpt uj "versionCode")
        · rcases t with te | tj
          · refine ⟨⟨[.validate, .commit], by simp [Part003.publishSubmit, hid, hvc, stepOrder]⟩, ?_⟩
            intro k hk hpre hfail
            match k, hk with
            | 0, _ => exact absurd hfail (by simp [stepOkB, stepAt, hid])
            | 1, _ => exact absurd hfail (by simp [stepOkB, stepAt, hvc])
            | 2, _ => exact ⟨by simp [Part003.publishSubmit, hid, hvc, stepOrder], by simp [Part003.publishSubmit, hid, hvc, isOkB]⟩
            | 3, _ => exact absurd (hpre 2 (by omega)) (by simp [stepOkB, stepAt, isOkB])
            | 4, _ => exact absurd (hpre 2 (by omega)) (by simp [stepOkB, stepAt, isOkB])
          · rcases v with ve | vj
            · refine ⟨⟨[.commit], by simp [Part003.publishSubmit, hid, hvc, stepOrder]⟩, ?_⟩
              intro k hk hpre hfail
              match k, hk with
              | 0, _ => exact absurd hfail (by simp [stepOkB, stepAt, hid])
              | 1, _ => exact absurd hfail (by simp [stepOkB, stepAt, hvc])
              | 2, _ => exact absurd hfail (by simp [stepOkB, stepAt, isOkB])
              | 3, _ => exact ⟨by simp [Part003.publishSubmit, hid, hvc, stepOrder], by simp [Part003.publishSubmit, hid, hvc, isOkB]⟩
              | 4, _ => exact absurd (hpre 3 (by omega)) (by simp [stepOkB, stepAt, isOkB])
            · rcases m with me | mj
              · refine ⟨⟨[], by simp [Part003.publishSubmit, hid, hvc]⟩, ?_⟩
                intro k hk hpre hfail
                match k, hk with
                | 0, _ => exact absurd hfail (by simp [stepOkB, stepAt, hid])
                | 1, _ => exact absurd hfail (by simp [stepOkB, stepAt, hvc])
                | 2, _ => exact absurd hfail (by simp [stepOkB, stepAt, isOkB])
                | 3, _ => exact absurd hfail (by simp [stepOkB, stepAt, isOkB])
                | 4, _ => exact ⟨by simp [Part003.publishSubmit, hid, hvc, stepOrder], by simp [Part003.publishSubmit, hid, hvc, isOkB]⟩
              · refine ⟨⟨[], by simp [Part003.publishSubmit, hid, hvc]⟩, ?_⟩
                intro k hk hpre hfail
                match k, hk with
                | 0, _ => exact absurd hfail (by simp [stepOkB, stepAt, hid])
                | 1, _ => exact absurd hfail (by simp [stepOkB, stepAt, hvc])
                | 2, _ => exact absurd hfail (by simp [stepOkB, stepAt, isOkB])
                | 3, _ => exact absurd hfail (by simp [stepOkB, stepAt, isOkB])
                | 4, _ => exact absurd hfail (by simp [stepOkB, stepAt, isOkB])
        · refine ⟨⟨[.track, .validate, .commit], by simp [Part003.publishSubmit, hid, hvc, stepOrder]⟩, ?_⟩
          intro k hk hpre hfail
          match k, hk with
          | 0, _ => exact absurd hfail (by simp [stepOkB, stepAt, hid])
          | 1, _ => exact ⟨by simp [Part003.publishSubmit, hid, hvc, stepOrder], by simp [Part003.publishSubmit, hid, hvc, isOkB]⟩
          | 2, _ => exact absurd (hpre 1 (by omega)) (by simp [stepOkB, stepAt, hvc])
          | 3, _ => exact absurd (hpre 1 (by omega)) (by simp [stepOkB, stepAt, hvc])
          | 4, _ => exact absurd (hpre 1 (by omega)) (by simp [stepOkB, stepAt, hvc])
    · refine ⟨⟨[.upload, .track, .validate, .commit], by simp [Part003.publishSubmit, hid, stepOrder]⟩, ?_⟩
      intro k hk hpre hfail
      match k, hk with
      | 0, _ => exact ⟨by simp [Part003.publishSubmit, hid, stepOrder], by simp [Part003.publishSubmit, hid, isOkB]⟩
      | 1, _ => exact absurd (hpre 0 (by omega)) (by simp [stepOkB, stepAt, hid])
      | 2, _ => exact absurd (hpre 0 (by omega)) (by simp [stepOkB, stepAt, hid])
      | 3, _ => exact absurd (hpre 0 (by omega)) (by simp [stepOkB, stepAt, hid])
      | 4, _ => exact absurd (hpre 0 (by omega)) (by simp [stepOkB, stepAt, hid])

/-- Claim C2 (witness): the theorem applied to the spec's own test scenario —
createEdit succeeds with id `"E1"`, uploadBundle throws — showing that
exactly createEdit and uploadBundle are issued and the flow fails. -/
theorem publishSubmit_sequential_abort_witness :
    ((1 : Nat) < 5 ∧
      (∀ j, j < 1 → stepOkB ⟨.ok (.obj [("id", .str "E1")]), .error "upload boom",
        .ok .null, .ok .null, .ok .null⟩ (stepAt j) = true) ∧
      stepOkB ⟨.ok (.obj [("id", .str "E1")]), .error "upload boom",
        .ok .null, .ok .null, .ok .null⟩ (stepAt 1) = false) ∧
    ((Part003.publishSubmit ⟨.ok (.obj [("id", .str "E1")]), .error "upload boom",
        .ok .null, .ok .null, .ok .null⟩).1 = stepOrder.take (1 + 1) ∧
      isOkB (Part003.publishSubmit ⟨.ok (.obj [("id", .str "E1")]), .error "upload boom",
        .ok .null, .ok .null, .ok .null⟩).2 = false) :=
  ⟨⟨by omega, by decide, by decide⟩,
    (publishSubmit_sequential_abort ⟨.ok (.obj [("id", .str "E1")]), .error "upload boom",
      .ok .null, .ok .null, .ok .null⟩).2 1 (by omega) (by decide) (by decide)⟩

/-! ### Base64url and the JWT builder

`toBase64Url` appears verbatim in both `src/unnamed/part_003` lines 61-66 and
`src/bin/psc-gh.mjs` lines 18-23: standard base64 of the input bytes, then
`+` → `-`, `/` → `_`, and trailing `=` stripped. -/

/-- The standard base64 alphabet used by `Buffer.toString('base64')`. -/
def b64Alphabet : List Char :=
  "ABCDEFGHIJKLMNOPQRSTUVWXYZabcdefghijklmnopqrstuvwxyz0123456789+/".toList

/-- The character encoding one six-bit group. -/
def b64Char (n : Nat) : Char := b64Alphabet.getD n 'A'

/-- Standard base64 encoding with `=` padding, three input bytes per
four output characters. -/
def base64Chunks : List Nat → List Char
  | b0 :: b1 :: b2 :: rest =>
    b64Char (b0 / 4) :: b64Char ((b0 % 4) * 16 + b1 / 16) ::
      b64Char ((b1 % 16) * 4 + b2 / 64) :: b64Char (b2 % 64) :: base64Chunks rest
  | [b0, b1] =>
    [b64Char (b0 / 4), b64Char ((b0 % 4) * 16 + b1 / 16), b64Char ((b1 % 16) * 4), '=']
  | [b0] => [b64Char (b0 / 4), b64Char ((b0 % 4) * 16), '=', '=']
  | [] => []

/-- The `replace(/\+/g, '-').replace(/\//g, '_')` step. -/
def b64UrlFix (c : Char) : Char :=
  if c = '+' then '-' else if c = '/' then '_' else c

/-- The `replace(/=+$/g, '')` step: strip trailing `=`. -/
def dropTrailingEq (l : List Char) : List Char :=
  (l.reverse.dropWhile fun c => c == '=').reverse

/-- `toBase64Url` from the source: base64, URL-safe substitution, padding
stripped. -/
def toBase64Url (bytes : List Nat) : List Char :=
  dropTrailingEq ((base64Chunks bytes).map b64UrlFix)

/-- The dot-joined signing input `encodedHeader + "." + encodedPayload`
(`header`/`payload` arrive as the bytes of their JSON serialization). -/
def signingInput (headerJson payloadJson : List Nat) : List Char :=
  toBase64Url headerJson ++ '.' :: toBase64Url payloadJson

/-- `buildJwt` from `src/unnamed/part_003` lines 68-79 (the same algorithm as
`signJwt` in `src/bin/psc-gh.mjs` lines 95-112): `sign` models
`crypto.createSign("RSA-SHA256")...sign(privateKeyPem)` applied to the
signing input, returning the raw signature bytes. -/
def buildJwt (headerJson payloadJson : List Nat) (sign : List Char → List Nat) : List Char :=
  signingInput headerJson payloadJson ++
    '.' :: toBase64Url (sign (signingInput headerJson payloadJson))

/-- The base64url alphabet (spec-side, for stating decodability). -/
def b64UrlAlphabet : List Char :=
  "ABCDEFGHIJKLMNOPQRSTUVWXYZabcdefghijklmnopqrstuvwxyz0123456789-_".toList

/-- The six-bit value of a base64url character (spec-side decoder helper). -/
def b64UrlValue (c : Char) : Nat := b64UrlAlphabet.indexOf c

/-- Standard base64url decoding of an unpadded segment.  This is not source
code: it is the spec's notion of "base64url-decoding", used to state the
round-trip property of the encoder. -/
def base64UrlDecode : List Char → List Nat
  | c0 :: c1 :: c2 :: c3 :: rest =>
    (b64UrlValue c0 * 4 + b64UrlValue c1 / 16) ::
      ((b64UrlValue c1 % 16) * 16 + b64UrlValue c2 / 4) ::
      ((b64UrlValue c2 % 4) * 64 + b64UrlValue c3) :: base64UrlDecode rest
  | [c0, c1, c2] =>
    [b64UrlValue c0 * 4 + b64UrlValue c1 / 16, (b64UrlValue c1 % 16) * 16 + b64UrlValue c2 / 4]
  | [c0, c1] => [b64UrlValue c0 * 4 + b64UrlValue c1 / 16]
  | [_] => []
  | [] => []

/-- Proof helper: the base64url character for a six-bit group. -/
def urlChar (n : Nat) : Char := b64UrlFix (b64Char n)

/-- Proof helper: the unpadded base64url encoding, computed chunkwise (shown
below to equal `toBase64Url`). -/
def urlChunks : List Nat → List Char
  | b0 :: b1 :: b2 :: rest =>
    urlChar (b0 / 4) :: urlChar ((b0 % 4) * 16 + b1 / 16) ::
      urlChar ((b1 % 16) * 4 + b2 / 64) :: urlChar (b2 % 64) :: urlChunks rest
  | [b0, b1] => [urlChar (b0 / 4), urlChar ((b0 % 4) * 16 + b1 / 16), urlChar ((b1 % 16) * 4)]
  | [b0] => [urlChar (b0 / 4), urlChar ((b0 % 4) * 16)]
  | [] => []

lemma urlChar_mem_alphabet (n : Nat) : urlChar n ∈ b64UrlAlphabet := by
  by_cases h : n < 64
  · have : ∀ i : Fin 64, urlChar i.val ∈ b64UrlAlphabet := by decide
    exact this ⟨n, h⟩
  · have hd : b64Alphabet.getD n 'A' = 'A' := by
      apply List.getD_eq_default
      have : b64Alphabet.length = 64 := by decide
      omega
    simp only [urlChar, b64Char, hd]
    decide

lemma urlChar_ne_eq (n : Nat) : urlChar n ≠ '=' := by
  intro h
  have := urlChar_mem_alphabet n
  rw [h] at this
  exact absurd this (by decide)

lemma urlChunks_mem_alphabet (bytes : List Nat) :
    ∀ c ∈ urlChunks bytes, c ∈ b64UrlAlphabet := by
  induction bytes using urlChunks.induct with
  | case1 b0 b1 b2 rest ih =>
    intro c hc
    simp only [urlChunks, List.mem_cons] at hc
    rcases hc with rfl | rfl | rfl | rfl | h
    · exact urlChar_mem_alphabet _
    · exact urlChar_mem_alphabet _
    · exact urlChar_mem_alphabet _
    · exact urlChar_mem_alphabet _
    · exact ih c h
  | case2 b0 b1 =>
    intro c hc
    simp only [urlChunks, List.mem_cons, List.not_mem_nil, or_false] at hc
    rcases hc with rfl | rfl | rfl <;> exact urlChar_mem_alphabet _
  | case3 b0 =>
    intro c hc
    simp only [urlChunks, List.mem_cons, List.not_mem_nil, or_false] at hc
    rcases hc with rfl | rfl <;> exact urlChar_mem_alphabet _
  | case4 =>
    intro c hc
    simp only [urlChunks, List.not_mem_nil] at hc

lemma urlChunks_ne_nil : ∀ bytes : List Nat, bytes ≠ [] → urlChunks bytes ≠ []
  | [], h => absurd rfl h
  | [_], _ => by simp [urlChunks]
  | [_, _], _ => by simp [urlChunks]
  | _ :: _ :: _ :: _, _ => by simp [urlChunks]

lemma dropWhile_eq_self_of_forall (p : Char → Bool) (l : List Char)
    (h : ∀ c ∈ l, p c = false) : l.dropWhile p = l := by
  cases l with
  | nil => rfl
  | cons a l =>
    rw [List.dropWhile_cons, h a (by simp)]
    simp

lemma dropTrailingEq_append_nostrip (A B : List Char) (hA : ∀ c ∈ A, c ≠ '=') :
    dropTrailingEq (A ++ B) = A ++ dropTrailingEq B := by
  have hA' : ∀ c ∈ A.reverse, (c == '=') = false := by
    intro c hc
    rw [List.mem_reverse] at hc
    simpa using hA c hc
  rw [dropTrailingEq, List.reverse_append, List.dropWhile_append]
  by_cases hB : ((B.reverse.dropWhile fun c => c == '=').isEmpty)
  · rw [if_pos hB, dropWhile_eq_self_of_forall _ _ hA', List.reverse_reverse]
    have : dropTrailingEq B = [] := by
      rw [dropTrailingEq, List.isEmpty_iff.mp hB]
      rfl
    rw [this, List.append_nil]
  · rw [if_neg hB, List.reverse_append, List.reverse_reverse, dropTrailingEq]

lemma toBase64Url_eq_urlChunks (bytes : List Nat) : toBase64Url bytes = urlChunks bytes := by
  induction bytes using urlChunks.induct with
  | case1 b0 b1 b2 rest ih =>
    rw [toBase64Url, base64Chunks, urlChunks]
    have hmap : (b64Char (b0 / 4) :: b64Char ((b0 % 4) * 16 + b1 / 16) ::
        b64Char ((b1 % 16) * 4 + b2 / 64) :: b64Char (b2 % 64) :: base64Chunks rest).map b64UrlFix =
        [urlChar (b0 / 4), urlChar ((b0 % 4) * 16 + b1 / 16),
          urlChar ((b1 % 16) * 4 + b2 / 64), urlChar (b2 % 64)] ++
          (base64Chunks rest).map b64UrlFix := by
      simp [urlChar]
    rw [hmap, dropTrailingEq_append_nostrip _ _ (by simp [urlChar_ne_eq])]
    rw [← toBase64Url, ih]
    rfl
  | case2 b0 b1 =>
    rw [toBase64Url, base64Chunks, urlChunks]
    have hmap : ([b64Char (b0 / 4), b64Char ((b0 % 4) * 16 + b1 / 16),
        b64Char ((b1 % 16) * 4), '=']).map b64UrlFix =
        [urlChar (b0 / 4), urlChar ((b0 % 4) * 16 + b1 / 16), urlChar ((b1 % 16) * 4)] ++
          ['='] := by
      simp [urlChar, b64UrlFix]
    rw [hmap, dropTrailingEq_append_nostrip _ _ (by simp [urlChar_ne_eq])]
    rfl
  | case3 b0 =>
    rw [toBase64Url, base64Chunks, urlChunks]
    have hmap : ([b64Char (b0 / 4), b64Char ((b0 % 4) * 16), '=', '=']).map b64UrlFix =
        [urlChar (b0 / 4), urlChar ((b0 % 4) * 16)] ++ ['=', '='] := by
      simp [urlChar, b64UrlFix]
    rw [hmap, dropTrailingEq_append_nostrip _ _ (by simp [urlChar_ne_eq])]
    rfl
  | case4 => rfl

lemma b64UrlValue_urlChar (n : Nat) (h : n < 64) : b64UrlValue (urlChar n) = n := by
  have : ∀ i : Fin 64, b64UrlValue (urlChar i.val) = i.val := by decide
  exact this ⟨n, h⟩

lemma base64UrlDecode_urlChunks (bytes : List Nat) (hv : ∀ b ∈ bytes, b < 256) :
    base64UrlDecode (urlChunks bytes) = bytes := by
  induction bytes using urlChunks.induct with
  | case1 b0 b1 b2 rest ih =>
    have h0 : b0 < 256 := hv b0 (by simp)
    have h1 : b1 < 256 := hv b1 (by simp)
    have h2 : b2 < 256 := hv b2 (by simp)
    rw [urlChunks, base64UrlDecode]
    rw [b64UrlValue_urlChar _ (by omega), b64UrlValue_urlChar _ (by omega),
      b64UrlValue_urlChar _ (by omega), b64UrlValue_urlChar _ (by omega)]
    rw [ih (fun b hb => hv b (by simp [hb]))]
    have e0 : b0 / 4 * 4 + (b0 % 4 * 16 + b1 / 16) / 16 = b0 := by omega
    have e1 : (b0 % 4 * 16 + b1 / 16) % 16 * 16 + (b1 % 16 * 4 + b2 / 64) / 4 = b1 := by omega
    have e2 : (b1 % 16 * 4 + b2 / 64) % 4 * 64 + b2 % 64 = b2 := by omega
    rw [e0, e1, e2]
  | case2 b0 b1 =>
    have h0 : b0 < 256 := hv b0 (by simp)
    have h1 : b1 < 256 := hv b1 (by simp)
    rw [urlChunks, base64UrlDecode]
    rw [b64UrlValue_urlChar _ (by omega), b64UrlValue_urlChar _ (by omega),
      b64UrlValue_urlChar _ (by omega)]
    have e0 : b0 / 4 * 4 + (b0 % 4 * 16 + b1 / 16) / 16 = b0 := by omega
    have e1 : (b0 % 4 * 16 + b1 / 16) % 16 * 16 + b1 % 16 * 4 / 4 = b1 := by omega
    rw [e0, e1]
  | case3 b0 =>
    have h0 : b0 < 256 := hv b0 (by simp)
    rw [urlChunks, base64UrlDecode]
    rw [b64UrlValue_urlChar _ (by omega), b64UrlValue_urlChar _ (by omega)]
    have e0 : b0 / 4 * 4 + b0 % 4 * 16 / 16 = b0 := by omega
    rw [e0]
  | case4 => simp [urlChunks, base64UrlDecode]

lemma splitOnCh_no_sep (sep : Char) (l : List Char) (h : ∀ c ∈ l, c ≠ sep) :
    splitOnCh sep l = [l] := by
  induction l with
  | nil => rfl
  | cons a l ih =>
    rw [splitOnCh, if_neg (h a (by simp)), ih fun c hc => h c (by simp [hc])]

lemma splitOnCh_append (sep : Char) (A rest : List Char) (hA : ∀ c ∈ A, c ≠ sep) :
    splitOnCh sep (A ++ sep :: rest) = A :: splitOnCh sep rest := by
  induction A with
  | nil =>
    rw [List.nil_append, splitOnCh, if_pos rfl]
  | cons a A ih =>
    rw [List.cons_append, splitOnCh, if_neg (hA a (by simp)),
      ih fun c hc => hA c (by simp [hc])]

/-- Claim C5 (confirmed): for every serialized header, serialized claim set
and signing function whose signature bytes are well-formed (a non-empty byte
list, as every RSA signature is), the JWT splits on `"."` into exactly the
three non-empty segments, none of which contains `'+'`, `'/'` or `'='`, and
base64url-decoding the first segment returns exactly the header's JSON
serialization bytes. -/
theorem buildJwt_three_segments (headerJson payloadJson : List Nat)
    (sign : List Char → List Nat)
    (hh : ∀ b ∈ headerJson, b < 256) (hp : ∀ b ∈ payloadJson, b < 256)
    (hs : ∀ b ∈ sign (signingInput headerJson payloadJson), b < 256)
    (hhne : headerJson ≠ []) (hpne : payloadJson ≠ [])
    (hsne : sign (signingInput headerJson payloadJson) ≠ []) :
    splitOnCh '.' (buildJwt headerJson payloadJson sign) =
      [toBase64Url headerJson, toBase64Url payloadJson,
        toBase64Url (sign (signingInput headerJson payloadJson))] ∧
    (splitOnCh '.' (buildJwt headerJson payloadJson sign)).length = 3 ∧
    (∀ seg ∈ splitOnCh '.' (buildJwt headerJson payloadJson sign),
      seg ≠ [] ∧ ∀ c ∈ seg, c ≠ '+' ∧ c ≠ '/' ∧ c ≠ '=') ∧
    base64UrlDecode (splitOnCh '.' (buildJwt headerJson payloadJson sign)).headI =
      headerJson := by
  have hnodot : ∀ bytes : List Nat, ∀ c ∈ toBase64Url bytes, c ≠ '.' := by
    intro bytes c hc
    rw [toBase64Url_eq_urlChunks] at hc
    have := urlChunks_mem_alphabet bytes c hc
    intro h
    rw [h] at this
    exact absurd this (by decide)
  have hsplit : splitOnCh '.' (buildJwt headerJson payloadJson sign) =
      [toBase64Url headerJson, toBase64Url payloadJson,
        toBase64Url (sign (signingInput headerJson payloadJson))] := by
    rw [buildJwt, signingInput, List.append_assoc, List.cons_append]
    rw [splitOnCh_append '.' _ _ (hnodot headerJson)]
    rw [splitOnCh_append '.' _ _ (hnodot payloadJson)]
    rw [splitOnCh_no_sep '.' _ (hnodot _)]
  have hseg : ∀ bytes : List Nat, (∀ b ∈ bytes, b < 256) → bytes ≠ [] →
      toBase64Url bytes ≠ [] ∧ ∀ c ∈ toBase64Url bytes, c ≠ '+' ∧ c ≠ '/' ∧ c ≠ '=' := by
    intro bytes hvb hbne
    rw [toBase64Url_eq_urlChunks]
    refine ⟨urlChunks_ne_nil bytes hbne, ?_⟩
    intro c hc
    have hmem := urlChunks_mem_alphabet bytes c hc
    refine ⟨fun h => ?_, fun h => ?_, fun h => ?_⟩ <;>
      · rw [h] at hmem
        exact absurd hmem (by decide)
  refine ⟨hsplit, by rw [hsplit]; rfl, ?_, ?_⟩
  · intro seg hseg'
    rw [hsplit] at hseg'
    simp only [List.mem_cons, List.not_mem_nil, or_false] at hseg'
    rcases hseg' with rfl | rfl | rfl
    · exact hseg headerJson hh hhne
    · exact hseg payloadJson hp hpne
    · exact hseg _ hs hsne
  · rw [hsplit]
    show base64UrlDecode (toBase64Url headerJson) = headerJson
    rw [toBase64Url_eq_urlChunks]
    exact base64UrlDecode_urlChunks headerJson hh

/-- Claim C5 (witness): the theorem applied to the concrete serialized
header/payload `"{}"` (bytes `[123, 125]`) and a constant signing function. -/
theorem buildJwt_three_segments_witness :
    ((∀ b ∈ [123, 125], b < 256) ∧ ([123, 125] : List Nat) ≠ [] ∧
      (fun _ : List Char => [9, 8, 7]) (signingInput [123, 125] [123, 125]) ≠ []) ∧
    (splitOnCh '.' (buildJwt [123, 125] [123, 125] (fun _ => [9, 8, 7])) =
      [toBase64Url [123, 125], toBase64Url [123, 125],
        toBase64Url ((fun _ : List Char => [9, 8, 7])
          (signingInput [123, 125] [123, 125]))] ∧
    (splitOnCh '.' (buildJwt [123, 125] [123, 125] (fun _ => [9, 8, 7]))).length = 3 ∧
    (∀ seg ∈ splitOnCh '.' (buildJwt [123, 125] [123, 125] (fun _ => [9, 8, 7])),
      seg ≠ [] ∧ ∀ c ∈ seg, c ≠ '+' ∧ c ≠ '/' ∧ c ≠ '=') ∧
    base64UrlDecode
        (splitOnCh '.' (buildJwt [123, 125] [123, 125] (fun _ => [9, 8, 7]))).headI =
      [123, 125]) :=
  ⟨⟨by decide, by decide, by decide⟩,
    buildJwt_three_segments [123, 125] [123, 125] (fun _ => [9, 8, 7])
      (by decide) (by decide) (by decide) (by decide) (by decide) (by decide)⟩

end Psc
